import Mathlib

/-!
# Verification of `rtmp/server.go`

A shallow embedding of the RTMP server front-end: `Server.Init` (configuration
defaulting), the registration phase of `Server.ListenAndServe`, and the accept
loop `Server.Serve` with its exponential backoff.

Modelling conventions.

* The configuration record `rtmpcfg.Server` is declared in another package; the
  fields that `server.go` reads or writes are kept with their source names.
  The numeric fields are Go integers that are only compared with constants and
  assigned constants, so they are `Int` here. `Locations` is a slice of
  `Location` values.
* `utils.Mux` is an external registry. It is represented by the ordered log of
  the calls made on it (`Init`, `Handle`).
* Effects of `Serve` (accept calls, log lines, sleeps, dispatched goroutines,
  the deferred `Close`) are recorded as an ordered list of events.
* `time.Duration` is a signed 64-bit count of nanoseconds; the doubling
  `d *= 2` is wrapped explicitly.
-/

namespace rtmp

/-! ## Constants -/

def DEFAULT_PORT : Int := 1935
def DEFAULT_TIMEOUT : Int := 10
def DEFAULT_SEND_BUFFER_SIZE : Int := 65536
def DEFAULT_READ_BUFFER_SIZE : Int := 65536
def DEFAULT_ROOT : String := "applications"
def DEFAULT_CORS : String := "webroot/crossdomain.xml"
def DEFAULT_TARGET : String := "conf/target.xml"
def DEFAULT_CHUNK_SIZE : Int := 4096
def DEFAULT_MAX_IDLE_TIME : Int := 3600
def DEFAULT_ACK_WINDOW_SIZE : Int := 2500000
def DEFAULT_PEER_BANDWIDTH : Int := 2500000

/-! ## Data model -/

/-- One `Location` entry of the configuration: a pattern and a handler name. -/
structure Location where
  Pattern : String
  Handler : String
deriving DecidableEq, Repr

/-- The fields of the configuration record `rtmpcfg.Server` used by `server.go`. -/
structure Config where
  Port : Int
  Timeout : Int
  MaxIdleTime : Int
  SendBufferSize : Int
  ReadBufferSize : Int
  Root : String
  Cors : String
  Target : String
  ChunkSize : Int
  Locations : List Location
deriving DecidableEq, Repr

/-- A call made on the external registry `utils.Mux`. -/
inductive MuxCall (H : Type) where
  | init : MuxCall H
  | handle (pattern : String) (h : H) : MuxCall H
deriving DecidableEq, Repr

/-- The `Server` struct: the configuration it points to and its `Mux`, the
latter as the log of calls made on it. The `logger` and `factory` fields are
collaborator handles that `Init` only stores. -/
structure Server (H : Type) where
  CFG : Config
  Mux : List (MuxCall H)

/-! ## `Server.Init` -/

/-- The statement `if cfg.Port == 0 { cfg.Port = DEFAULT_PORT }`. -/
def initPort (cfg : Config) : Config :=
  if cfg.Port = 0 then { cfg with Port := DEFAULT_PORT } else cfg

/-- The statement `if cfg.Timeout == 0 { cfg.Timeout = DEFAULT_TIMEOUT }`. -/
def initTimeout (cfg : Config) : Config :=
  if cfg.Timeout = 0 then { cfg with Timeout := DEFAULT_TIMEOUT } else cfg

/-- The statement `if cfg.MaxIdleTime == 0 { cfg.MaxIdleTime = DEFAULT_MAX_IDLE_TIME }`. -/
def initMaxIdleTime (cfg : Config) : Config :=
  if cfg.MaxIdleTime = 0 then { cfg with MaxIdleTime := DEFAULT_MAX_IDLE_TIME } else cfg

/-- The statement on `cfg.SendBufferSize`. -/
def initSendBufferSize (cfg : Config) : Config :=
  if cfg.SendBufferSize = 0 then { cfg with SendBufferSize := DEFAULT_SEND_BUFFER_SIZE } else cfg

/-- The statement on `cfg.ReadBufferSize`. -/
def initReadBufferSize (cfg : Config) : Config :=
  if cfg.ReadBufferSize = 0 then { cfg with ReadBufferSize := DEFAULT_READ_BUFFER_SIZE } else cfg

/-- The statement `if cfg.Root == "" { cfg.Root = DEFAULT_ROOT }`. -/
def initRoot (cfg : Config) : Config :=
  if cfg.Root = "" then { cfg with Root := DEFAULT_ROOT } else cfg

/-- The statement `if cfg.Cors == "" { cfg.Cors = DEFAULT_CORS }`. -/
def initCors (cfg : Config) : Config :=
  if cfg.Cors = "" then { cfg with Cors := DEFAULT_CORS } else cfg

/-- The statement `if cfg.Target == "" { cfg.Target = DEFAULT_TARGET }`. -/
def initTarget (cfg : Config) : Config :=
  if cfg.Target = "" then { cfg with Target := DEFAULT_TARGET } else cfg

/-- The statement
`if cfg.ChunkSize < 128 || cfg.ChunkSize > 65536 { cfg.ChunkSize = DEFAULT_CHUNK_SIZE }`. -/
def initChunkSize (cfg : Config) : Config :=
  if cfg.ChunkSize < 128 ∨ cfg.ChunkSize > 65536 then
    { cfg with ChunkSize := DEFAULT_CHUNK_SIZE } else cfg

/-- The defaulting that `Server.Init` performs on the configuration: the nine
`if` statements of the source, executed in the source's order. -/
def initConfig (cfg : Config) : Config :=
  let cfg := initPort cfg
  let cfg := initTimeout cfg
  let cfg := initMaxIdleTime cfg
  let cfg := initSendBufferSize cfg
  let cfg := initReadBufferSize cfg
  let cfg := initRoot cfg
  let cfg := initCors cfg
  let cfg := initTarget cfg
  let cfg := initChunkSize cfg
  cfg

/-- The method `Server.Init`: initialises the `Mux`, stores the configuration and applies
the defaults to it. It has no error result. -/
def Server.Init {H : Type} (me : Server H) (cfg : Config) : Server H :=
  { me with Mux := me.Mux ++ [MuxCall.init], CFG := initConfig cfg }

/-! ## Errors, connections and observable events -/

/-- A Go `error` value as the accept loop inspects it: either it does not
implement `net.Error`, or it does and `Temporary()` answers the given flag. -/
inductive GoError where
  | other (id : Nat) : GoError
  | net (id : Nat) (temporary : Bool) : GoError
deriving DecidableEq, Repr

/-- The test `ne, ok := err.(net.Error); ok && ne.Temporary()`. -/
def GoError.isTemporary : GoError → Bool
  | GoError.other _ => false
  | GoError.net _ t => t

/-- What one call of `l.Accept()` answers: a connection or an error. -/
inductive AcceptOutcome where
  | conn (c : Nat) : AcceptOutcome
  | fail (err : GoError) : AcceptOutcome
deriving DecidableEq, Repr

/-- The outcome is an error that the loop retries. -/
def AcceptOutcome.isTransient : AcceptOutcome → Bool
  | AcceptOutcome.conn _ => false
  | AcceptOutcome.fail err => err.isTemporary

/-- The outcome is an error that makes the loop return. -/
def AcceptOutcome.isFatal : AcceptOutcome → Bool
  | AcceptOutcome.conn _ => false
  | AcceptOutcome.fail err => !err.isTemporary

/-- The connection that the `Accept` call returned, when it succeeded. -/
def AcceptOutcome.accepted : AcceptOutcome → Option Nat
  | AcceptOutcome.conn c => some c
  | AcceptOutcome.fail _ => none

/-- The effects of `ListenAndServe` and `Serve`, in program order.
`warnAccept err n` is the line `Accept error: %v; retrying in %dms` with `n`
the integer that `%d` prints; `spawn c` is `go nc.serve()` for connection `c`. -/
inductive Event where
  | newHandler (loc : Location) : Event
  | warnNotRegistered (name : String) : Event
  | infoListening (port : Int) : Event
  | listen (port : Int) : Event
  | errorListen (port : Int) : Event
  | keepAliveInit (idle : Int) : Event
  | accept : Event
  | warnAccept (err : GoError) (n : Int) : Event
  | sleep (d : Int) : Event
  | spawn (c : Nat) : Event
  | close : Event
deriving DecidableEq, Repr

/-- The durations slept in a trace, in order. -/
def sleeps : List Event → List Int
  | [] => []
  | Event.sleep d :: t => d :: sleeps t
  | _ :: t => sleeps t

/-- The number of `Accept` calls in a trace. -/
def acceptCalls (t : List Event) : Nat := t.count Event.accept

/-- The number of `Close` calls in a trace. -/
def closeCalls (t : List Event) : Nat := t.count Event.close

/-- The connections handed to a goroutine (`go nc.serve()`) in a trace, in
order. -/
def spawns : List Event → List Nat
  | [] => []
  | Event.spawn c :: t => c :: spawns t
  | _ :: t => spawns t

/-- The event is a `Listening on port` info line. -/
def Event.isInfoListening : Event → Bool
  | Event.infoListening _ => true
  | _ => false

/-- The event is a call of `net.Listen`. -/
def Event.isListen : Event → Bool
  | Event.listen _ => true
  | _ => false

/-- The event belongs to the registration loop: a `NewHandler` call or the
warning for a handler that is not registered. -/
def Event.isRegistration : Event → Bool
  | Event.newHandler _ => true
  | Event.warnNotRegistered _ => true
  | _ => false

/-! ## Durations -/

/-- The constant `time.Millisecond`, in nanoseconds. -/
def Millisecond : Int := 1000000

/-- The constant `time.Second`, in nanoseconds. -/
def Second : Int := 1000000000

/-- Two's-complement wrap of an integer into the `int64` range. -/
def wrapInt64 (x : Int) : Int := (x + 2 ^ 63) % 2 ^ 64 - 2 ^ 63

/-! ## Registration phase of `Server.ListenAndServe` -/

/-- One iteration of `for i, loc := range me.CFG.Locations`. `elem` is the
slice element `me.CFG.Locations[i]`; `loc` is the loop's copy of it, and the
two defaulting assignments change the copy only. `NewHandler` is given the
address of the slice element. The factory is an external collaborator: its
answer is a function of the Location it is given, `none` standing for `nil`. -/
def registerStep {H : Type} (NewHandler : Location → Option H)
    (st : Server H × List Event) (elem : Location) : Server H × List Event :=
  let me := st.1
  let loc := elem
  let loc := if loc.Pattern = "" then { loc with Pattern := "/" } else loc
  let loc := if loc.Handler = "" then { loc with Handler := "rtmp-live" } else loc
  match NewHandler elem with
  | none => (me, st.2 ++ [Event.newHandler elem, Event.warnNotRegistered loc.Handler])
  | some h =>
    ({ me with Mux := me.Mux ++ [MuxCall.handle loc.Pattern h] },
      st.2 ++ [Event.newHandler elem])

/-- The whole registration loop of `ListenAndServe`: the server with its `Mux`
filled, and the trace of the loop. -/
def registerLocations {H : Type} (NewHandler : Location → Option H)
    (me : Server H) : Server H × List Event :=
  me.CFG.Locations.foldl (registerStep NewHandler) (me, [])

/-! ## `Server.Serve` -/

/-- The state of the accept loop: the backoff `d`, the effects so far, and the
error `Serve` returned, if it has returned. While `ret` is `none` the loop is
inside a call of `l.Accept()`, the last event of the trace. -/
structure ServeState where
  d : Int
  trace : List Event
  ret : Option GoError
deriving DecidableEq, Repr

/-- The state in which `Serve` makes its first `Accept` call:
`d := 5 * time.Millisecond`, with `m := 1 * time.Second` a constant. -/
def serveInit : ServeState :=
  { d := 5 * Millisecond, trace := [Event.accept], ret := none }

/-- One iteration of the `for` loop of `Serve`, given what the pending
`Accept` call answers. After the loop has returned nothing happens any more. -/
def serveStep (st : ServeState) (o : AcceptOutcome) : ServeState :=
  match st.ret with
  | some _ => st
  | none =>
    match o with
    | AcceptOutcome.fail err =>
      if err.isTemporary then
        let m := 1 * Second
        let d := st.d
        let d2 := wrapInt64 (d * 2)
        let d2 := if d2 > m then m else d2
        { d := d2,
          trace := st.trace ++ [Event.warnAccept err d, Event.sleep d, Event.accept],
          ret := none }
      else
        { st with trace := st.trace ++ [Event.close], ret := some err }
    | AcceptOutcome.conn c =>
      { st with trace := st.trace ++ [Event.spawn c, Event.accept] }

/-- The accept loop run from a state against the successive answers of
`l.Accept()`; when the answers are used up the loop waits in `Accept`. -/
def serveFrom (st : ServeState) (outcomes : List AcceptOutcome) : ServeState :=
  outcomes.foldl serveStep st

/-- The method `Server.Serve` on a listener whose `Accept` calls answer `outcomes`. -/
def Server.Serve {H : Type} (_me : Server H) (outcomes : List AcceptOutcome) : ServeState :=
  serveFrom serveInit outcomes

/-! ## `Server.ListenAndServe` -/

/-- The method `Server.ListenAndServe`: the registration loop, the `Listening on port`
line, `net.Listen` (answering `bind`, `some err` on failure), then `Serve` on
the keep-alive listener. The result is the server, the trace and the returned
error (`none` while the accept loop is still running). -/
def Server.ListenAndServe {H : Type} (me : Server H) (NewHandler : Location → Option H)
    (bind : Option GoError) (outcomes : List AcceptOutcome) :
    Server H × List Event × Option GoError :=
  let r := registerLocations NewHandler me
  let me := r.1
  let trace := r.2 ++ [Event.infoListening me.CFG.Port, Event.listen me.CFG.Port]
  match bind with
  | some err => (me, trace ++ [Event.errorListen me.CFG.Port], some err)
  | none =>
    let trace := trace ++ [Event.keepAliveInit (wrapInt64 (me.CFG.MaxIdleTime * Second))]
    let st := me.Serve outcomes
    (me, trace ++ st.trace, st.ret)

/-! ## Concrete inputs -/

/-- A server whose three Locations are a live application, an entry with a
bogus handler name, and a second live application. -/
def threeLocations : Server String :=
  { CFG :=
      { Port := 1935, Timeout := 10, MaxIdleTime := 3600, SendBufferSize := 65536,
        ReadBufferSize := 65536, Root := "applications", Cors := "webroot/crossdomain.xml",
        Target := "conf/target.xml", ChunkSize := 4096,
        Locations := [{ Pattern := "/live", Handler := "rtmp-live" },
          { Pattern := "/x", Handler := "bogus" },
          { Pattern := "", Handler := "rtmp-live" }] },
    Mux := [MuxCall.init] }

/-- A handler factory that knows the name `rtmp-live` only; the handler it
makes is identified by the pattern configured for the Location. -/
def liveFactory (loc : Location) : Option String :=
  if loc.Handler = "rtmp-live" then some loc.Pattern else none

/-- A server whose only Location leaves both the pattern and the handler name
empty. -/
def emptyLocation : Server String :=
  { threeLocations with
    CFG := { threeLocations.CFG with Locations := [{ Pattern := "", Handler := "" }] } }

/-- A configuration with every optional field unset and a chunk size above the
valid range. -/
def oversizedChunk : Config :=
  { Port := 0, Timeout := 0, MaxIdleTime := 0, SendBufferSize := 0, ReadBufferSize := 0,
    Root := "", Cors := "", Target := "", ChunkSize := 100000, Locations := [] }

/-! ## Theorems: `Server.Init` -/

theorem initPort_eq (cfg : Config) :
    initPort cfg = { cfg with Port := if cfg.Port = 0 then 1935 else cfg.Port } := by
  unfold initPort; split_ifs <;> rfl

theorem initTimeout_eq (cfg : Config) :
    initTimeout cfg = { cfg with Timeout := if cfg.Timeout = 0 then 10 else cfg.Timeout } := by
  unfold initTimeout; split_ifs <;> rfl

theorem initMaxIdleTime_eq (cfg : Config) :
    initMaxIdleTime cfg =
      { cfg with MaxIdleTime := if cfg.MaxIdleTime = 0 then 3600 else cfg.MaxIdleTime } := by
  unfold initMaxIdleTime; split_ifs <;> rfl

theorem initSendBufferSize_eq (cfg : Config) :
    initSendBufferSize cfg =
      { cfg with
        SendBufferSize := if cfg.SendBufferSize = 0 then 65536 else cfg.SendBufferSize } := by
  unfold initSendBufferSize; split_ifs <;> rfl

theorem initReadBufferSize_eq (cfg : Config) :
    initReadBufferSize cfg =
      { cfg with
        ReadBufferSize := if cfg.ReadBufferSize = 0 then 65536 else cfg.ReadBufferSize } := by
  unfold initReadBufferSize; split_ifs <;> rfl

theorem initRoot_eq (cfg : Config) :
    initRoot cfg = { cfg with Root := if cfg.Root = "" then "applications" else cfg.Root } := by
  unfold initRoot; split_ifs <;> rfl

theorem initCors_eq (cfg : Config) :
    initCors cfg =
      { cfg with Cors := if cfg.Cors = "" then "webroot/crossdomain.xml" else cfg.Cors } := by
  unfold initCors; split_ifs <;> rfl

theorem initTarget_eq (cfg : Config) :
    initTarget cfg =
      { cfg with Target := if cfg.Target = "" then "conf/target.xml" else cfg.Target } := by
  unfold initTarget; split_ifs <;> rfl

theorem initChunkSize_eq (cfg : Config) :
    initChunkSize cfg =
      { cfg with
        ChunkSize := if cfg.ChunkSize < 128 ∨ cfg.ChunkSize > 65536 then 4096
          else cfg.ChunkSize } := by
  unfold initChunkSize; split_ifs <;> rfl

/-- The configuration after the nine statements, field by field. -/
theorem initConfig_eq (cfg : Config) :
    initConfig cfg =
      { Port := if cfg.Port = 0 then 1935 else cfg.Port,
        Timeout := if cfg.Timeout = 0 then 10 else cfg.Timeout,
        MaxIdleTime := if cfg.MaxIdleTime = 0 then 3600 else cfg.MaxIdleTime,
        SendBufferSize := if cfg.SendBufferSize = 0 then 65536 else cfg.SendBufferSize,
        ReadBufferSize := if cfg.ReadBufferSize = 0 then 65536 else cfg.ReadBufferSize,
        Root := if cfg.Root = "" then "applications" else cfg.Root,
        Cors := if cfg.Cors = "" then "webroot/crossdomain.xml" else cfg.Cors,
        Target := if cfg.Target = "" then "conf/target.xml" else cfg.Target,
        ChunkSize := if cfg.ChunkSize < 128 ∨ cfg.ChunkSize > 65536 then 4096
          else cfg.ChunkSize,
        Locations := cfg.Locations } := by
  simp only [initConfig, initPort_eq, initTimeout_eq, initMaxIdleTime_eq,
    initSendBufferSize_eq, initReadBufferSize_eq, initRoot_eq, initCors_eq, initTarget_eq,
    initChunkSize_eq]

/-- C1: after `Server.Init`, each of Port, Timeout, MaxIdleTime, SendBufferSize,
ReadBufferSize that was 0 holds its default (1935, 10, 3600, 65536, 65536), each
of Root, Cors, Target that was empty holds its default, and each of these
fields that was non-zero or non-empty keeps its input value. -/
theorem Init_defaults {H : Type} (me : Server H) (cfg : Config) :
    (me.Init cfg).CFG.Port = (if cfg.Port = 0 then 1935 else cfg.Port) ∧
    (me.Init cfg).CFG.Timeout = (if cfg.Timeout = 0 then 10 else cfg.Timeout) ∧
    (me.Init cfg).CFG.MaxIdleTime = (if cfg.MaxIdleTime = 0 then 3600 else cfg.MaxIdleTime) ∧
    (me.Init cfg).CFG.SendBufferSize =
      (if cfg.SendBufferSize = 0 then 65536 else cfg.SendBufferSize) ∧
    (me.Init cfg).CFG.ReadBufferSize =
      (if cfg.ReadBufferSize = 0 then 65536 else cfg.ReadBufferSize) ∧
    (me.Init cfg).CFG.Root = (if cfg.Root = "" then "applications" else cfg.Root) ∧
    (me.Init cfg).CFG.Cors = (if cfg.Cors = "" then "webroot/crossdomain.xml" else cfg.Cors) ∧
    (me.Init cfg).CFG.Target = (if cfg.Target = "" then "conf/target.xml" else cfg.Target) := by
  simp only [Server.Init, initConfig_eq, and_self]

/-- C2: after `Server.Init` the chunk size is 4096 when the input chunk size is
below 128 or above 65536, and is the input chunk size when it lies in
[128, 65536], both bounds included. `Init` is total and has no error result. -/
theorem Init_chunk_size {H : Type} (me : Server H) (cfg : Config) :
    (cfg.ChunkSize < 128 ∨ cfg.ChunkSize > 65536 → (me.Init cfg).CFG.ChunkSize = 4096) ∧
    (128 ≤ cfg.ChunkSize ∧ cfg.ChunkSize ≤ 65536 →
      (me.Init cfg).CFG.ChunkSize = cfg.ChunkSize) := by
  simp only [Server.Init, initConfig_eq]
  constructor
  · intro h
    rw [if_pos h]
  · intro h
    rw [if_neg (by omega)]

/-- C2 at the chunk size 100000 of `oversizedChunk`: it becomes 4096. -/
theorem Init_chunk_size_witness :
    (threeLocations.Init oversizedChunk).CFG.ChunkSize = 4096 :=
  (Init_chunk_size threeLocations oversizedChunk).1 (by decide)

/-- C3: running `Server.Init` on the configuration a first `Init` produced
leaves every field of the configuration as it is. -/
theorem Init_idempotent {H : Type} (me me2 : Server H) (cfg : Config) :
    (me2.Init (me.Init cfg).CFG).CFG = (me.Init cfg).CFG := by
  simp only [Server.Init]
  rw [initConfig_eq (initConfig cfg), initConfig_eq cfg]
  simp only
  congr 1 <;> split_ifs <;> rfl

/-! ## Theorems: registration phase of `Server.ListenAndServe` -/

/-- The `Mux` after the registration loop over `locs`: the calls already made,
then one `Handle` call for each Location whose handler resolves, in order. -/
theorem registerStep_foldl_mux {H : Type} (f : Location → Option H) (locs : List Location)
    (me : Server H) (tr : List Event) :
    (locs.foldl (registerStep f) (me, tr)).1.Mux =
      me.Mux ++ locs.filterMap (fun l =>
        (f l).map (fun h => MuxCall.handle (if l.Pattern = "" then "/" else l.Pattern) h)) := by
  induction locs generalizing me tr with
  | nil => simp
  | cons a t ih =>
    rw [List.foldl_cons]
    cases hfa : f a with
    | none =>
      have hs : registerStep f (me, tr) a =
          (me, tr ++ [Event.newHandler a, Event.warnNotRegistered
            (if a.Handler = "" then "rtmp-live" else a.Handler)]) := by
        simp only [registerStep, hfa]
        split_ifs <;> rfl
      rw [hs, ih, List.filterMap_cons]
      simp only [hfa, Option.map_none']
    | some h =>
      have hs : registerStep f (me, tr) a =
          ({ me with Mux := me.Mux ++
              [MuxCall.handle (if a.Pattern = "" then "/" else a.Pattern) h] },
            tr ++ [Event.newHandler a]) := by
        simp only [registerStep, hfa]
        split_ifs <;> rfl
      rw [hs, ih, List.filterMap_cons]
      simp only [hfa, Option.map_some', List.append_assoc, List.singleton_append]

/-- The registration loop does not touch the configuration. -/
theorem registerStep_foldl_cfg {H : Type} (f : Location → Option H) (locs : List Location)
    (me : Server H) (tr : List Event) :
    (locs.foldl (registerStep f) (me, tr)).1.CFG = me.CFG := by
  induction locs generalizing me tr with
  | nil => rfl
  | cons a t ih =>
    rw [List.foldl_cons]
    cases hfa : f a with
    | none =>
      have hs : (registerStep f (me, tr) a).1 = me := by
        simp only [registerStep, hfa]
      rw [← Prod.mk.eta (p := registerStep f (me, tr) a), ih, hs]
    | some h =>
      have hs : (registerStep f (me, tr) a).1.CFG = me.CFG := by
        simp only [registerStep, hfa]
      rw [← Prod.mk.eta (p := registerStep f (me, tr) a), ih, hs]

/-- The trace of the registration loop over `locs`: one `NewHandler` call per
Location, on the slice element itself, followed by a warning when it answers
`nil`. -/
theorem registerStep_foldl_trace {H : Type} (f : Location → Option H) (locs : List Location)
    (me : Server H) (tr : List Event) :
    (locs.foldl (registerStep f) (me, tr)).2 =
      tr ++ (locs.map (fun l =>
        match f l with
        | none => [Event.newHandler l,
            Event.warnNotRegistered (if l.Handler = "" then "rtmp-live" else l.Handler)]
        | some _ => [Event.newHandler l])).flatten := by
  induction locs generalizing me tr with
  | nil => simp
  | cons a t ih =>
    rw [List.foldl_cons, ← Prod.mk.eta (p := registerStep f (me, tr) a), ih]
    cases hfa : f a with
    | none =>
      have hs : (registerStep f (me, tr) a).2 =
          tr ++ [Event.newHandler a, Event.warnNotRegistered
            (if a.Handler = "" then "rtmp-live" else a.Handler)] := by
        simp only [registerStep, hfa]
        split_ifs <;> rfl
      rw [hs]
      simp [hfa]
    | some h =>
      have hs : (registerStep f (me, tr) a).2 = tr ++ [Event.newHandler a] := by
        simp only [registerStep, hfa]
      rw [hs]
      simp [hfa]

/-- The server that `ListenAndServe` leaves is the one the registration loop
produced, whatever `net.Listen` and the accept loop do. -/
theorem ListenAndServe_server {H : Type} (me : Server H) (f : Location → Option H)
    (bind : Option GoError) (outcomes : List AcceptOutcome) :
    (me.ListenAndServe f bind outcomes).1 = (registerLocations f me).1 := by
  unfold Server.ListenAndServe
  cases bind <;> rfl

/-- The `Mux` that `ListenAndServe` leaves. -/
theorem ListenAndServe_mux {H : Type} (me : Server H) (f : Location → Option H)
    (bind : Option GoError) (outcomes : List AcceptOutcome) :
    (me.ListenAndServe f bind outcomes).1.Mux =
      me.Mux ++ me.CFG.Locations.filterMap (fun l =>
        (f l).map (fun h => MuxCall.handle (if l.Pattern = "" then "/" else l.Pattern) h)) := by
  rw [ListenAndServe_server, registerLocations, registerStep_foldl_mux]

/-- C7: in the registration phase of `ListenAndServe`, a Location for which
`NewHandler` answers `nil` adds no `Handle` call and does not stop the loop:
the `Mux` receives the `Handle` calls of the Locations before it followed by
those of the Locations after it, every Location before or after it whose
handler resolves is registered, and for a 3-Location list whose middle entry is
unresolvable and whose other two resolve, exactly the first and the third are
registered. -/
theorem ListenAndServe_skips_unresolved {H : Type} (me : Server H) (f : Location → Option H)
    (bind : Option GoError) (outcomes : List AcceptOutcome)
    (pre post : List Location) (loc : Location)
    (hlocs : me.CFG.Locations = pre ++ loc :: post) (hnil : f loc = none) :
    (me.ListenAndServe f bind outcomes).1.Mux =
        me.Mux ++
          pre.filterMap (fun l => (f l).map (fun h =>
            MuxCall.handle (if l.Pattern = "" then "/" else l.Pattern) h)) ++
          post.filterMap (fun l => (f l).map (fun h =>
            MuxCall.handle (if l.Pattern = "" then "/" else l.Pattern) h)) ∧
    (∀ l ∈ pre ++ post, ∀ h, f l = some h →
      MuxCall.handle (if l.Pattern = "" then "/" else l.Pattern) h ∈
        (me.ListenAndServe f bind outcomes).1.Mux) ∧
    (∀ a c ha hc, pre = [a] → post = [c] → f a = some ha → f c = some hc →
      (me.ListenAndServe f bind outcomes).1.Mux =
        me.Mux ++ [MuxCall.handle (if a.Pattern = "" then "/" else a.Pattern) ha,
          MuxCall.handle (if c.Pattern = "" then "/" else c.Pattern) hc]) := by
  have hmux : (me.ListenAndServe f bind outcomes).1.Mux =
        me.Mux ++
          pre.filterMap (fun l => (f l).map (fun h =>
            MuxCall.handle (if l.Pattern = "" then "/" else l.Pattern) h)) ++
          post.filterMap (fun l => (f l).map (fun h =>
            MuxCall.handle (if l.Pattern = "" then "/" else l.Pattern) h)) := by
    rw [ListenAndServe_mux, hlocs, List.filterMap_append, List.filterMap_cons]
    simp only [hnil, Option.map_none', List.append_assoc]
  refine ⟨hmux, ?_, ?_⟩
  · intro l hl h hfl
    rw [hmux, List.append_assoc, ← List.filterMap_append]
    apply List.mem_append_right
    rw [List.mem_filterMap]
    exact ⟨l, hl, by rw [hfl]; rfl⟩
  · intro a c ha hc hpre hpost hfa hfc
    rw [hmux, hpre, hpost]
    simp [hfa, hfc]

/-- C7 at a concrete 3-Location list with a bogus middle entry: the first and
the third Location are registered, the third under the pattern `/`. -/
theorem ListenAndServe_skips_unresolved_witness :
    (threeLocations.ListenAndServe liveFactory none []).1.Mux =
      [MuxCall.init, MuxCall.handle "/live" "/live", MuxCall.handle "/" ""] :=
  (ListenAndServe_skips_unresolved threeLocations liveFactory none []
    [{ Pattern := "/live", Handler := "rtmp-live" }] [{ Pattern := "", Handler := "rtmp-live" }]
    { Pattern := "/x", Handler := "bogus" } rfl (by decide)).2.2
    { Pattern := "/live", Handler := "rtmp-live" } { Pattern := "", Handler := "rtmp-live" }
    "/live" "" rfl rfl (by decide) (by decide)

/-- C8, the code at a Location with empty pattern and empty handler name, with
a factory that knows `rtmp-live`: `NewHandler` is given the Location with the
empty handler name, answers `nil`, nothing is registered, and the warning names
`rtmp-live`. -/
theorem ListenAndServe_default_handler_not_resolved :
    (emptyLocation.ListenAndServe liveFactory (some (GoError.other 0)) []).2.1 =
      [Event.newHandler { Pattern := "", Handler := "" },
        Event.warnNotRegistered "rtmp-live",
        Event.infoListening 1935, Event.listen 1935, Event.errorListen 1935] ∧
    (emptyLocation.ListenAndServe liveFactory (some (GoError.other 0)) []).1.Mux =
      [MuxCall.init] ∧
    liveFactory { Pattern := "/", Handler := "rtmp-live" } = some "/" := by
  refine ⟨?_, ?_, ?_⟩ <;> decide

/-- C9: in the registration phase of `ListenAndServe`, a Location whose handler
resolves adds exactly one `Handle` call, placed after those of the Locations
before it and before those of the Locations after it; the call registers the
handler under `/` when the configured pattern is empty and under the
configured pattern otherwise. -/
theorem ListenAndServe_registers_pattern {H : Type} (me : Server H) (f : Location → Option H)
    (bind : Option GoError) (outcomes : List AcceptOutcome)
    (pre post : List Location) (loc : Location) (h : H)
    (hlocs : me.CFG.Locations = pre ++ loc :: post) (hres : f loc = some h) :
    (me.ListenAndServe f bind outcomes).1.Mux =
        me.Mux ++
          pre.filterMap (fun l => (f l).map (fun h =>
            MuxCall.handle (if l.Pattern = "" then "/" else l.Pattern) h)) ++
          MuxCall.handle (if loc.Pattern = "" then "/" else loc.Pattern) h ::
          post.filterMap (fun l => (f l).map (fun h =>
            MuxCall.handle (if l.Pattern = "" then "/" else l.Pattern) h)) ∧
    (loc.Pattern = "" → MuxCall.handle "/" h ∈ (me.ListenAndServe f bind outcomes).1.Mux) ∧
    (loc.Pattern ≠ "" →
      MuxCall.handle loc.Pattern h ∈ (me.ListenAndServe f bind outcomes).1.Mux) := by
  have hmux : (me.ListenAndServe f bind outcomes).1.Mux =
        me.Mux ++
          pre.filterMap (fun l => (f l).map (fun h =>
            MuxCall.handle (if l.Pattern = "" then "/" else l.Pattern) h)) ++
          MuxCall.handle (if loc.Pattern = "" then "/" else loc.Pattern) h ::
          post.filterMap (fun l => (f l).map (fun h =>
            MuxCall.handle (if l.Pattern = "" then "/" else l.Pattern) h)) := by
    rw [ListenAndServe_mux, hlocs, List.filterMap_append, List.filterMap_cons]
    simp only [hres, Option.map_some', List.append_assoc]
  refine ⟨hmux, ?_, ?_⟩
  · intro hp
    rw [hmux, if_pos hp]
    simp
  · intro hp
    rw [hmux, if_neg hp]
    simp

/-- C9 at the third Location of `threeLocations`, whose pattern is empty: its
handler is registered under `/`. -/
theorem ListenAndServe_registers_pattern_witness :
    MuxCall.handle "/" "" ∈ (threeLocations.ListenAndServe liveFactory none []).1.Mux :=
  (ListenAndServe_registers_pattern threeLocations liveFactory none []
    [{ Pattern := "/live", Handler := "rtmp-live" }, { Pattern := "/x", Handler := "bogus" }] []
    { Pattern := "", Handler := "rtmp-live" } "" rfl (by decide)).2.1 rfl

/-! ## Lemmas on the accept loop -/

theorem serveStep_returned (st : ServeState) (e : GoError) (o : AcceptOutcome)
    (h : st.ret = some e) : serveStep st o = st := by
  simp only [serveStep, h]

theorem serveStep_conn (st : ServeState) (c : Nat) (h : st.ret = none) :
    serveStep st (AcceptOutcome.conn c) =
      { st with trace := st.trace ++ [Event.spawn c, Event.accept] } := by
  simp only [serveStep, h]

theorem serveStep_fatal (st : ServeState) (e : GoError) (h : st.ret = none)
    (he : e.isTemporary = false) :
    serveStep st (AcceptOutcome.fail e) =
      { st with trace := st.trace ++ [Event.close], ret := some e } := by
  simp [serveStep, h, he]

theorem serveStep_transient (st : ServeState) (e : GoError) (h : st.ret = none)
    (he : e.isTemporary = true) :
    serveStep st (AcceptOutcome.fail e) =
      { d := if wrapInt64 (st.d * 2) > 1 * Second then 1 * Second else wrapInt64 (st.d * 2),
        trace := st.trace ++ [Event.warnAccept e st.d, Event.sleep st.d, Event.accept],
        ret := none } := by
  simp [serveStep, h, he]

theorem serveFrom_nil (st : ServeState) : serveFrom st [] = st := rfl

theorem serveFrom_cons (st : ServeState) (o : AcceptOutcome) (outs : List AcceptOutcome) :
    serveFrom st (o :: outs) = serveFrom (serveStep st o) outs := rfl

theorem serveFrom_append (st : ServeState) (xs ys : List AcceptOutcome) :
    serveFrom st (xs ++ ys) = serveFrom (serveFrom st xs) ys := by
  simp only [serveFrom, List.foldl_append]

/-- Once `Serve` has returned, further answers of the listener change nothing. -/
theorem serveFrom_returned (st : ServeState) (e : GoError) (outs : List AcceptOutcome)
    (h : st.ret = some e) : serveFrom st outs = st := by
  induction outs with
  | nil => rfl
  | cons o t ih => rw [serveFrom_cons, serveStep_returned st e o h, ih]

/-- Doubling a delay between 0 and one second does not leave the `int64`
range, and the clamped result is the smaller of the double and one second. -/
theorem next_delay (d : Int) (h0 : 0 ≤ d) (h1 : d ≤ Second) :
    (if wrapInt64 (d * 2) > 1 * Second then 1 * Second else wrapInt64 (d * 2)) =
      min (d * 2) Second := by
  have hw : wrapInt64 (d * 2) = d * 2 := by
    simp only [wrapInt64, Second] at *
    norm_num
    omega
  rw [hw]
  simp only [Second] at *
  split_ifs <;> omega

/-- The delay after one more transient error, in closed form. -/
theorem next_delay_pow (n : Nat) :
    (if wrapInt64 (min (5 * Millisecond * 2 ^ n) Second * 2) > 1 * Second then 1 * Second
      else wrapInt64 (min (5 * Millisecond * 2 ^ n) Second * 2)) =
      min (5 * Millisecond * 2 ^ (n + 1)) Second := by
  have hp : (0 : Int) < 2 ^ n := by positivity
  rw [next_delay _ (by simp only [Millisecond, Second]; omega) (min_le_right _ _)]
  rw [pow_succ]
  simp only [Millisecond, Second]
  omega

/-- The state of the loop after answers none of which is fatal: it has not
returned, the delay has doubled once per transient error (up to the cap), a new
`Accept` call was made per answer, `Close` was not called, and the trace has
only grown. -/
theorem serveFrom_nonfatal (outs : List AcceptOutcome) (st : ServeState) (n : Nat)
    (hret : st.ret = none) (hd : st.d = min (5 * Millisecond * 2 ^ n) Second)
    (houts : ∀ o ∈ outs, o.isFatal = false) :
    (serveFrom st outs).ret = none ∧
    (serveFrom st outs).d =
      min (5 * Millisecond * 2 ^ (n + outs.countP AcceptOutcome.isTransient)) Second ∧
    closeCalls (serveFrom st outs).trace = closeCalls st.trace ∧
    acceptCalls (serveFrom st outs).trace = acceptCalls st.trace + outs.length ∧
    (st.trace.getLast? = some Event.accept →
      (serveFrom st outs).trace.getLast? = some Event.accept) ∧
    ∃ t, (serveFrom st outs).trace = st.trace ++ t := by
  induction outs generalizing st n with
  | nil =>
    refine ⟨hret, ?_, rfl, rfl, fun h => h, [], ?_⟩
    · simpa using hd
    · simp [serveFrom_nil]
  | cons o t ih =>
    have ht : ∀ o ∈ t, o.isFatal = false := fun o ho => houts o (List.mem_cons_of_mem _ ho)
    have ho := houts o (List.mem_cons_self _ _)
    rw [serveFrom_cons]
    cases o with
    | conn c =>
      rw [serveStep_conn st c hret]
      obtain ⟨h1, h2, h3, h4, h5, u, h6⟩ :=
        ih { st with trace := st.trace ++ [Event.spawn c, Event.accept] } n hret hd ht
      refine ⟨h1, ?_, ?_, ?_, ?_, [Event.spawn c, Event.accept] ++ u, ?_⟩
      · rw [h2]; simp [AcceptOutcome.isTransient]
      · rw [h3]; simp [closeCalls]
      · rw [h4]; simp [acceptCalls]; omega
      · intro _; exact h5 (by simp)
      · rw [h6]; simp
    | fail e =>
      have he : e.isTemporary = true := by
        simpa [AcceptOutcome.isFatal] using ho
      rw [serveStep_transient st e hret he]
      obtain ⟨h1, h2, h3, h4, h5, u, h6⟩ :=
        ih { d := if wrapInt64 (st.d * 2) > 1 * Second then 1 * Second
                else wrapInt64 (st.d * 2),
             trace := st.trace ++ [Event.warnAccept e st.d, Event.sleep st.d, Event.accept],
             ret := none } (n + 1) rfl (by simp only [hd]; exact next_delay_pow n) ht
      refine ⟨h1, ?_, ?_, ?_, ?_,
        [Event.warnAccept e st.d, Event.sleep st.d, Event.accept] ++ u, ?_⟩
      · rw [h2, List.countP_cons_of_pos _ _ (by simpa [AcceptOutcome.isTransient] using he)]
        rw [show n + 1 + List.countP AcceptOutcome.isTransient t =
          n + (List.countP AcceptOutcome.isTransient t + 1) by omega]
      · rw [h3]; simp [closeCalls]
      · rw [h4]; simp [acceptCalls]; omega
      · intro _; exact h5 (by simp)
      · rw [h6]; simp

theorem sleeps_append (a b : List Event) : sleeps (a ++ b) = sleeps a ++ sleeps b := by
  induction a with
  | nil => rfl
  | cons x t ih => cases x <;> simp [sleeps, ih]

/-- A step of the loop only adds events at the end of the trace. -/
theorem serveStep_trace (st : ServeState) (o : AcceptOutcome) :
    ∃ t, (serveStep st o).trace = st.trace ++ t := by
  cases hret : st.ret with
  | some e => exact ⟨[], by rw [serveStep_returned st e o hret]; simp⟩
  | none =>
    cases o with
    | conn c => exact ⟨_, by rw [serveStep_conn st c hret]⟩
    | fail e =>
      cases he : e.isTemporary with
      | true => exact ⟨_, by rw [serveStep_transient st e hret he]⟩
      | false => exact ⟨_, by rw [serveStep_fatal st e hret he]⟩

/-- The loop only adds events at the end of the trace. -/
theorem serveFrom_trace (outs : List AcceptOutcome) (st : ServeState) :
    ∃ t, (serveFrom st outs).trace = st.trace ++ t := by
  induction outs generalizing st with
  | nil => exact ⟨[], by simp [serveFrom_nil]⟩
  | cons o t ih =>
    obtain ⟨u, hu⟩ := serveStep_trace st o
    obtain ⟨v, hv⟩ := ih (serveStep st o)
    exact ⟨u ++ v, by rw [serveFrom_cons, hv, hu, List.append_assoc]⟩

/-- A transient answer is not a fatal one. -/
theorem not_fatal_of_transient (o : AcceptOutcome) (h : o.isTransient = true) :
    o.isFatal = false := by
  cases o with
  | conn c => rfl
  | fail e => simpa [AcceptOutcome.isFatal, AcceptOutcome.isTransient] using h

/-- The sleeps of the loop over transient errors only, from a state whose
delay is `min (5ms * 2 ^ n) 1s`. -/
theorem serveFrom_transient_sleeps (outs : List AcceptOutcome) (st : ServeState) (n : Nat)
    (hret : st.ret = none) (hd : st.d = min (5 * Millisecond * 2 ^ n) Second)
    (houts : ∀ o ∈ outs, o.isTransient = true) :
    sleeps (serveFrom st outs).trace =
      sleeps st.trace ++
        (List.range outs.length).map (fun k => min (5 * Millisecond * 2 ^ (n + k)) Second) := by
  induction outs generalizing st n with
  | nil => simp [serveFrom_nil]
  | cons o t ih =>
    have ht : ∀ o ∈ t, o.isTransient = true := fun o ho => houts o (List.mem_cons_of_mem _ ho)
    have ho := houts o (List.mem_cons_self _ _)
    cases o with
    | conn c => simp [AcceptOutcome.isTransient] at ho
    | fail e =>
      have he : e.isTemporary = true := by simpa [AcceptOutcome.isTransient] using ho
      rw [serveFrom_cons, serveStep_transient st e hret he,
        ih _ (n + 1) rfl (by simp only [hd]; exact next_delay_pow n) ht]
      simp only [sleeps_append, sleeps, List.length_cons, List.range_succ_eq_map,
        List.map_cons, List.map_map, List.append_assoc, List.nil_append, List.cons_append,
        List.append_nil, hd, Nat.add_zero]
      congr 2
      apply List.map_congr_left
      intro k _
      simp only [Function.comp, Nat.succ_eq_add_one]
      rw [show n + 1 + k = n + (k + 1) by omega]

/-- If the loop returns an error, that error is the first fatal answer. -/
theorem serveFrom_ret_some (outs : List AcceptOutcome) (st : ServeState) (e : GoError)
    (hret : st.ret = none) (h : (serveFrom st outs).ret = some e) :
    ∃ pre rest, outs = pre ++ AcceptOutcome.fail e :: rest ∧ e.isTemporary = false ∧
      ∀ o ∈ pre, o.isFatal = false := by
  induction outs generalizing st with
  | nil => rw [serveFrom_nil, hret] at h; cases h
  | cons o t ih =>
    rw [serveFrom_cons] at h
    cases o with
    | conn c =>
      rw [serveStep_conn st c hret] at h
      obtain ⟨pre, rest, h1, h2, h3⟩ :=
        ih { st with trace := st.trace ++ [Event.spawn c, Event.accept] } hret h
      refine ⟨AcceptOutcome.conn c :: pre, rest, by rw [h1]; rfl, h2, ?_⟩
      intro o ho
      rcases List.mem_cons.mp ho with rfl | ho
      · rfl
      · exact h3 o ho
    | fail x =>
      cases hx : x.isTemporary with
      | true =>
        rw [serveStep_transient st x hret hx] at h
        obtain ⟨pre, rest, h1, h2, h3⟩ := ih _ rfl h
        refine ⟨AcceptOutcome.fail x :: pre, rest, by rw [h1]; rfl, h2, ?_⟩
        intro o ho
        rcases List.mem_cons.mp ho with rfl | ho
        · simp [AcceptOutcome.isFatal, hx]
        · exact h3 o ho
      | false =>
        rw [serveStep_fatal st x hret hx, serveFrom_returned _ x t rfl] at h
        simp only [Option.some.injEq] at h
        subst h
        exact ⟨[], t, rfl, hx, by simp⟩

theorem serveInit_delay : serveInit.d = min (5 * Millisecond * 2 ^ 0) Second := by
  simp only [serveInit, Millisecond, Second]
  norm_num

/-! ## Theorems: `Server.Serve` -/

/-- C4: in a run of `Serve` whose first N answers of `Accept` are all transient
errors, the first N sleeps are `min (5ms * 2 ^ k) 1s` for k = 0 .. N-1, the
events that the (k+1)-th failure causes are the warning, the sleep of exactly
`min (5ms * 2 ^ k) 1s` and the next `Accept` call, and these delays are
5, 10, 20, 40, 80, 160, 320, 640 ms and then one second. -/
theorem Serve_backoff_sequence {H : Type} (me : Server H) (pre rest : List AcceptOutcome)
    (hpre : ∀ o ∈ pre, o.isTransient = true) :
    (sleeps (me.Serve (pre ++ rest)).trace).take pre.length =
      (List.range pre.length).map (fun k => min (5 * Millisecond * 2 ^ k) Second) ∧
    (∀ k e, pre[k]? = some (AcceptOutcome.fail e) →
      (me.Serve (pre.take (k + 1))).trace =
        (me.Serve (pre.take k)).trace ++
          [Event.warnAccept e (min (5 * Millisecond * 2 ^ k) Second),
            Event.sleep (min (5 * Millisecond * 2 ^ k) Second), Event.accept]) ∧
    (∀ k : Nat, min (5 * Millisecond * 2 ^ k) Second =
      if k < 8 then 5 * 2 ^ k * Millisecond else Second) := by
  refine ⟨?_, ?_, ?_⟩
  · obtain ⟨t, ht⟩ := serveFrom_trace rest (serveFrom serveInit pre)
    have hs := serveFrom_transient_sleeps pre serveInit 0 rfl serveInit_delay hpre
    simp only [Server.Serve, serveFrom_append, ht, sleeps_append, hs]
    simp only [serveInit, sleeps, List.nil_append, Nat.zero_add]
    rw [List.take_left' (by simp)]
  · intro k e hk
    have hklt : k < pre.length := by
      by_contra hge
      rw [List.getElem?_eq_none (by omega)] at hk
      cases hk
    have htake : ∀ o ∈ pre.take k, o.isTransient = true :=
      fun o ho => hpre o (List.mem_of_mem_take ho)
    have hnf : ∀ o ∈ pre.take k, o.isFatal = false :=
      fun o ho => not_fatal_of_transient o (htake o ho)
    obtain ⟨h1, h2, -⟩ := serveFrom_nonfatal (pre.take k) serveInit 0 rfl serveInit_delay hnf
    have hcount : (pre.take k).countP AcceptOutcome.isTransient = k := by
      rw [List.countP_eq_length.mpr htake, List.length_take]
      omega
    have he : e.isTemporary = true := by
      have := hpre _ (List.getElem?_mem hk)
      simpa [AcceptOutcome.isTransient] using this
    rw [hcount, Nat.zero_add] at h2
    simp only [Server.Serve]
    rw [List.take_succ, hk, Option.toList, serveFrom_append, serveFrom_cons, serveFrom_nil,
      serveStep_transient _ e h1 he, h2]
  · intro k
    simp only [Millisecond, Second]
    split_ifs with hk
    · interval_cases k <;> norm_num
    · have h8 : (2 : Int) ^ 8 ≤ 2 ^ k := pow_le_pow_right₀ (by norm_num) (by omega)
      rw [min_eq_right]
      norm_num at h8
      omega

/-- C4 at three transient errors followed by a success: the sleeps are 5 ms,
10 ms and 20 ms. -/
theorem Serve_backoff_sequence_witness :
    (sleeps (threeLocations.Serve
      ([AcceptOutcome.fail (GoError.net 1 true), AcceptOutcome.fail (GoError.net 1 true),
        AcceptOutcome.fail (GoError.net 1 true)] ++ [AcceptOutcome.conn 3])).trace).take 3 =
      [5000000, 10000000, 20000000] :=
  (Serve_backoff_sequence threeLocations
    [AcceptOutcome.fail (GoError.net 1 true), AcceptOutcome.fail (GoError.net 1 true),
      AcceptOutcome.fail (GoError.net 1 true)] [AcceptOutcome.conn 3] (by decide)).1

/-- C5 as stated fails: after a transient error and a success, the sleep for
the next transient error is 10 ms, not 5 ms. -/
theorem Serve_reset_counterexample :
    ¬ ∀ (pre : List AcceptOutcome) (c : Nat) (e : GoError),
      (∀ o ∈ pre, o.isFatal = false) → e.isTemporary = true →
      sleeps (threeLocations.Serve
          (pre ++ [AcceptOutcome.conn c, AcceptOutcome.fail e])).trace =
        sleeps (threeLocations.Serve (pre ++ [AcceptOutcome.conn c])).trace ++
          [5 * Millisecond] := by
  intro h
  have h1 := h [AcceptOutcome.fail (GoError.net 1 true)] 7 (GoError.net 1 true)
    (by decide) rfl
  revert h1
  decide

/-- C5, amended: a successful accept leaves the backoff delay as it is. When a
transient error immediately follows a successful accept, in a run without a
fatal error before, the sleep taken for it is `min (5ms * 2 ^ n) 1s`, with n
the number of transient errors before the success; it is 5 ms when there was
none. -/
theorem Serve_success_keeps_backoff {H : Type} (me : Server H) (pre : List AcceptOutcome)
    (c : Nat) (e : GoError)
    (hpre : ∀ o ∈ pre, o.isFatal = false) (he : e.isTemporary = true) :
    (me.Serve (pre ++ [AcceptOutcome.conn c])).d = (me.Serve pre).d ∧
    sleeps (me.Serve (pre ++ [AcceptOutcome.conn c, AcceptOutcome.fail e])).trace =
      sleeps (me.Serve (pre ++ [AcceptOutcome.conn c])).trace ++
        [min (5 * Millisecond * 2 ^ pre.countP AcceptOutcome.isTransient) Second] ∧
    (pre.countP AcceptOutcome.isTransient = 0 →
      sleeps (me.Serve (pre ++ [AcceptOutcome.conn c, AcceptOutcome.fail e])).trace =
        sleeps (me.Serve (pre ++ [AcceptOutcome.conn c])).trace ++ [5 * Millisecond]) := by
  obtain ⟨h1, h2, -⟩ := serveFrom_nonfatal pre serveInit 0 rfl serveInit_delay hpre
  rw [Nat.zero_add] at h2
  have hstep : (me.Serve (pre ++ [AcceptOutcome.conn c])) =
      { serveFrom serveInit pre with
        trace := (serveFrom serveInit pre).trace ++ [Event.spawn c, Event.accept] } := by
    simp only [Server.Serve]
    rw [serveFrom_append, serveFrom_cons, serveFrom_nil, serveStep_conn _ c h1]
  have hsl : sleeps (me.Serve (pre ++ [AcceptOutcome.conn c, AcceptOutcome.fail e])).trace =
      sleeps (me.Serve (pre ++ [AcceptOutcome.conn c])).trace ++
        [min (5 * Millisecond * 2 ^ pre.countP AcceptOutcome.isTransient) Second] := by
    rw [show pre ++ [AcceptOutcome.conn c, AcceptOutcome.fail e] =
      (pre ++ [AcceptOutcome.conn c]) ++ [AcceptOutcome.fail e] by simp]
    have hunf : me.Serve ((pre ++ [AcceptOutcome.conn c]) ++ [AcceptOutcome.fail e]) =
        serveStep (me.Serve (pre ++ [AcceptOutcome.conn c])) (AcceptOutcome.fail e) := by
      simp only [Server.Serve]
      rw [serveFrom_append, serveFrom_cons, serveFrom_nil]
    rw [hunf, serveStep_transient _ e (by rw [hstep]; exact h1) he]
    simp only [sleeps_append, sleeps, hstep, h2]
  refine ⟨by rw [hstep]; rfl, hsl, ?_⟩
  intro h0
  rw [hsl, h0]
  simp only [Millisecond, Second]
  norm_num

/-- C5 amended, at a transient error, a success and a second transient error:
the second sleep is 10 ms. -/
theorem Serve_success_keeps_backoff_witness :
    sleeps (threeLocations.Serve
      ([AcceptOutcome.fail (GoError.net 1 true)] ++
        [AcceptOutcome.conn 7, AcceptOutcome.fail (GoError.net 2 true)])).trace =
      sleeps (threeLocations.Serve
        ([AcceptOutcome.fail (GoError.net 1 true)] ++ [AcceptOutcome.conn 7])).trace ++
        [10000000] :=
  (Serve_success_keeps_backoff threeLocations [AcceptOutcome.fail (GoError.net 1 true)] 7
    (GoError.net 2 true) (by decide) rfl).2.1

/-- C6: at the first answer of `Accept` that is a non-transient error, `Serve`
returns exactly that error; the only event after the failed `Accept` call is
the deferred `Close`, so no sleep and no `Accept` call follows it; `Close` is
called exactly once in the run, and `Accept` once per answer consumed. -/
theorem Serve_fatal_returns {H : Type} (me : Server H) (pre rest : List AcceptOutcome)
    (e : GoError) (hpre : ∀ o ∈ pre, o.isFatal = false) (he : e.isTemporary = false) :
    (me.Serve (pre ++ AcceptOutcome.fail e :: rest)).ret = some e ∧
    (me.Serve (pre ++ AcceptOutcome.fail e :: rest)).trace =
      (me.Serve pre).trace ++ [Event.close] ∧
    (me.Serve pre).trace.getLast? = some Event.accept ∧
    closeCalls (me.Serve (pre ++ AcceptOutcome.fail e :: rest)).trace = 1 ∧
    acceptCalls (me.Serve (pre ++ AcceptOutcome.fail e :: rest)).trace = pre.length + 1 ∧
    sleeps (me.Serve (pre ++ AcceptOutcome.fail e :: rest)).trace =
      sleeps (me.Serve pre).trace := by
  obtain ⟨h1, -, h3, h4, h5, -⟩ := serveFrom_nonfatal pre serveInit 0 rfl serveInit_delay hpre
  have hrun : me.Serve (pre ++ AcceptOutcome.fail e :: rest) =
      { serveFrom serveInit pre with
        trace := (serveFrom serveInit pre).trace ++ [Event.close], ret := some e } := by
    simp only [Server.Serve]
    rw [serveFrom_append, serveFrom_cons, serveStep_fatal _ e h1 he,
      serveFrom_returned _ e rest rfl]
  have hc : closeCalls (serveFrom serveInit pre).trace = 0 := by
    rw [h3]; decide
  have ha : acceptCalls (serveFrom serveInit pre).trace = pre.length + 1 := by
    rw [h4, Nat.add_comm]; rfl
  rw [hrun]
  refine ⟨rfl, rfl, h5 rfl, ?_, ?_, ?_⟩
  · simp only [closeCalls] at hc ⊢
    rw [List.count_append, hc]
    rfl
  · simp only [acceptCalls] at ha ⊢
    rw [List.count_append, ha]
    rfl
  · simp only [Server.Serve, sleeps_append, sleeps, List.append_nil]

/-- C6 at a success, a transient error and then a closed listener: `Serve`
returns the listener's error. -/
theorem Serve_fatal_returns_witness :
    (threeLocations.Serve
      ([AcceptOutcome.conn 1, AcceptOutcome.fail (GoError.net 1 true)] ++
        AcceptOutcome.fail (GoError.other 9) :: [AcceptOutcome.conn 2])).ret =
      some (GoError.other 9) :=
  (Serve_fatal_returns threeLocations
    [AcceptOutcome.conn 1, AcceptOutcome.fail (GoError.net 1 true)] [AcceptOutcome.conn 2]
    (GoError.other 9) (by decide) rfl).1

/-- C10: when every answer of `Accept` so far is a success or a transient
error, `Serve` has not returned, has not called `Close`, and is inside a
further `Accept` call (one call per answer consumed, plus the pending one);
and whenever `Serve` has returned an error, that error is a non-transient
answer of `Accept` with no non-transient answer before it. -/
theorem Serve_absorbs_transient {H : Type} (me : Server H) (outs : List AcceptOutcome) :
    ((∀ o ∈ outs, o.isFatal = false) →
      (me.Serve outs).ret = none ∧
      closeCalls (me.Serve outs).trace = 0 ∧
      (me.Serve outs).trace.getLast? = some Event.accept ∧
      acceptCalls (me.Serve outs).trace = outs.length + 1) ∧
    (∀ e, (me.Serve outs).ret = some e →
      ∃ pre rest, outs = pre ++ AcceptOutcome.fail e :: rest ∧ e.isTemporary = false ∧
        ∀ o ∈ pre, o.isFatal = false) := by
  constructor
  · intro houts
    obtain ⟨h1, -, h3, h4, h5, -⟩ :=
      serveFrom_nonfatal outs serveInit 0 rfl serveInit_delay houts
    refine ⟨h1, ?_, h5 rfl, ?_⟩
    · simp only [Server.Serve]
      rw [h3]; decide
    · simp only [Server.Serve]
      rw [h4, Nat.add_comm]; rfl
  · intro e he
    exact serveFrom_ret_some outs serveInit e rfl he

/-- C10 at a transient error, a success and another transient error: `Serve`
has not returned. -/
theorem Serve_absorbs_transient_witness :
    (threeLocations.Serve
      [AcceptOutcome.fail (GoError.net 1 true), AcceptOutcome.conn 1,
        AcceptOutcome.fail (GoError.net 2 true)]).ret = none :=
  ((Serve_absorbs_transient threeLocations
    [AcceptOutcome.fail (GoError.net 1 true), AcceptOutcome.conn 1,
      AcceptOutcome.fail (GoError.net 2 true)]).1 (by decide)).1

/-! ## Theorems: `ListenAndServe` around `net.Listen`, dispatch order -/

theorem spawns_append (a b : List Event) : spawns (a ++ b) = spawns a ++ spawns b := by
  induction a with
  | nil => rfl
  | cons x t ih => cases x <;> simp [spawns, ih]

/-- Every event of the registration loop is a `NewHandler` call or a
not-registered warning. -/
theorem registerLocations_trace {H : Type} (f : Location → Option H) (me : Server H) :
    ∀ ev ∈ (registerLocations f me).2, ev.isRegistration = true := by
  intro ev hev
  rw [registerLocations, registerStep_foldl_trace, List.nil_append, List.mem_flatten] at hev
  obtain ⟨l, hl, hevl⟩ := hev
  rw [List.mem_map] at hl
  obtain ⟨loc, -, rfl⟩ := hl
  cases hf : f loc with
  | none =>
    simp only [hf, List.mem_cons, List.mem_singleton, List.not_mem_nil, or_false] at hevl
    rcases hevl with rfl | rfl <;> rfl
  | some h =>
    simp only [hf, List.mem_singleton] at hevl
    subst hevl
    rfl

/-- A trace of registration events holds no `Accept` call, no dispatched
connection, no `Listening on port` line and no `net.Listen` call. -/
theorem registration_only (t : List Event) (h : ∀ ev ∈ t, ev.isRegistration = true) :
    acceptCalls t = 0 ∧ spawns t = [] ∧ closeCalls t = 0 ∧
    t.countP Event.isInfoListening = 0 ∧ t.countP Event.isListen = 0 := by
  induction t with
  | nil => exact ⟨rfl, rfl, rfl, rfl, rfl⟩
  | cons x t ih =>
    obtain ⟨h1, h2, h3, h4, h5⟩ := ih (fun ev hev => h ev (List.mem_cons_of_mem _ hev))
    have hx := h x (List.mem_cons_self _ _)
    simp only [acceptCalls, closeCalls] at h1 h3 ⊢
    cases x <;> simp_all [Event.isRegistration, spawns, Event.isInfoListening, Event.isListen]

/-- The configuration that `ListenAndServe` reads the port from is the one it
was given. -/
theorem registerLocations_cfg {H : Type} (f : Location → Option H) (me : Server H) :
    (registerLocations f me).1.CFG = me.CFG := by
  rw [registerLocations, registerStep_foldl_cfg]

/-- The trace and result of `ListenAndServe` when `net.Listen` fails. -/
theorem ListenAndServe_bind_failure {H : Type} (me : Server H) (f : Location → Option H)
    (err : GoError) (outcomes : List AcceptOutcome) :
    (me.ListenAndServe f (some err) outcomes).2 =
      ((registerLocations f me).2 ++
        [Event.infoListening me.CFG.Port, Event.listen me.CFG.Port,
          Event.errorListen me.CFG.Port], some err) := by
  simp only [Server.ListenAndServe, registerLocations_cfg, List.append_assoc,
    List.cons_append, List.nil_append]

/-- The trace and result of `ListenAndServe` when `net.Listen` succeeds. -/
theorem ListenAndServe_bind_success {H : Type} (me : Server H) (f : Location → Option H)
    (outcomes : List AcceptOutcome) :
    (me.ListenAndServe f none outcomes).2 =
      ((registerLocations f me).2 ++
        [Event.infoListening me.CFG.Port, Event.listen me.CFG.Port,
          Event.keepAliveInit (wrapInt64 (me.CFG.MaxIdleTime * Second))] ++
        (serveFrom serveInit outcomes).trace, (serveFrom serveInit outcomes).ret) := by
  simp only [Server.ListenAndServe, registerLocations_cfg, Server.Serve, List.append_assoc,
    List.cons_append, List.nil_append]

/-- C11: when `net.Listen` fails, `ListenAndServe` returns the bind error
unchanged, the `Failed to listen` error line is the last event, and the accept
loop is not entered: the trace holds no `Accept` call, no dispatched connection
and no `Close`, whatever the listener would have answered. -/
theorem ListenAndServe_bind_error {H : Type} (me : Server H) (f : Location → Option H)
    (err : GoError) (outcomes : List AcceptOutcome) :
    (me.ListenAndServe f (some err) outcomes).2.2 = some err ∧
    (me.ListenAndServe f (some err) outcomes).2.1.getLast? =
      some (Event.errorListen me.CFG.Port) ∧
    acceptCalls (me.ListenAndServe f (some err) outcomes).2.1 = 0 ∧
    spawns (me.ListenAndServe f (some err) outcomes).2.1 = [] ∧
    closeCalls (me.ListenAndServe f (some err) outcomes).2.1 = 0 ∧
    (me.ListenAndServe f (some err) outcomes).2.1 =
      (me.ListenAndServe f (some err) []).2.1 := by
  obtain ⟨h1, h2, h3, -, -⟩ := registration_only _ (registerLocations_trace f me)
  rw [ListenAndServe_bind_failure, ListenAndServe_bind_failure]
  refine ⟨rfl, by simp, ?_, ?_, ?_, rfl⟩
  · simp only [acceptCalls] at h1 ⊢
    rw [List.count_append, h1]
    rfl
  · simp only [spawns_append, h2]
    rfl
  · simp only [closeCalls] at h3 ⊢
    rw [List.count_append, h3]
    rfl

/-- The connections dispatched by the loop from a running state: those of
the successful answers before the first fatal one, in order. -/
theorem serveFrom_spawns (outs : List AcceptOutcome) (st : ServeState) (hret : st.ret = none) :
    spawns (serveFrom st outs).trace =
      spawns st.trace ++
        (outs.takeWhile (fun o => !o.isFatal)).filterMap AcceptOutcome.accepted := by
  induction outs generalizing st with
  | nil => simp [serveFrom_nil]
  | cons o t ih =>
    rw [serveFrom_cons]
    cases o with
    | conn c =>
      rw [serveStep_conn st c hret,
        ih { st with trace := st.trace ++ [Event.spawn c, Event.accept] } hret]
      simp [spawns_append, spawns, AcceptOutcome.isFatal, AcceptOutcome.accepted]
    | fail e =>
      cases he : e.isTemporary with
      | true =>
        rw [serveStep_transient st e hret he, ih _ rfl]
        simp [spawns_append, spawns, AcceptOutcome.isFatal, AcceptOutcome.accepted, he]
      | false =>
        rw [serveStep_fatal st e hret he, serveFrom_returned _ e t rfl]
        simp [spawns_append, spawns, AcceptOutcome.isFatal, he]

/-- C12: the connections that `Serve` hands to goroutines are the connections
of the successful `Accept` answers before the first non-transient error, in
the same order and once each; a successful answer is dispatched right away,
before the next `Accept` call, and a failed answer dispatches nothing. -/
theorem Serve_dispatch_order {H : Type} (me : Server H) (outs : List AcceptOutcome) :
    spawns (me.Serve outs).trace =
      (outs.takeWhile (fun o => !o.isFatal)).filterMap AcceptOutcome.accepted ∧
    (∀ c, (∀ o ∈ outs, o.isFatal = false) →
      (me.Serve (outs ++ [AcceptOutcome.conn c])).trace =
        (me.Serve outs).trace ++ [Event.spawn c, Event.accept]) ∧
    (∀ e, spawns (me.Serve (outs ++ [AcceptOutcome.fail e])).trace =
      spawns (me.Serve outs).trace) := by
  refine ⟨?_, ?_, ?_⟩
  · simp only [Server.Serve]
    rw [serveFrom_spawns outs serveInit rfl]
    rfl
  · intro c houts
    obtain ⟨h1, -⟩ := serveFrom_nonfatal outs serveInit 0 rfl serveInit_delay houts
    simp only [Server.Serve]
    rw [serveFrom_append, serveFrom_cons, serveFrom_nil, serveStep_conn _ c h1]
  · intro e
    simp only [Server.Serve]
    rw [serveFrom_append, serveFrom_cons, serveFrom_nil]
    cases hret : (serveFrom serveInit outs).ret with
    | some x => rw [serveStep_returned _ x _ hret]
    | none =>
      cases he : e.isTemporary with
      | true =>
        rw [serveStep_transient _ e hret he]
        simp [spawns_append, spawns]
      | false =>
        rw [serveStep_fatal _ e hret he]
        simp [spawns_append, spawns]

/-- C12 at two connections around a transient error, then a closed listener
and a connection that is never accepted: connections 4 and 5 are dispatched,
in that order, and after a further success connection 6 follows at once. -/
theorem Serve_dispatch_order_witness :
    spawns (threeLocations.Serve
      [AcceptOutcome.conn 4, AcceptOutcome.fail (GoError.net 1 true), AcceptOutcome.conn 5,
        AcceptOutcome.fail (GoError.other 9), AcceptOutcome.conn 7]).trace = [4, 5] ∧
    (threeLocations.Serve ([AcceptOutcome.conn 4] ++ [AcceptOutcome.conn 6])).trace =
      (threeLocations.Serve [AcceptOutcome.conn 4]).trace ++ [Event.spawn 6, Event.accept] :=
  ⟨(Serve_dispatch_order threeLocations
      [AcceptOutcome.conn 4, AcceptOutcome.fail (GoError.net 1 true), AcceptOutcome.conn 5,
        AcceptOutcome.fail (GoError.other 9), AcceptOutcome.conn 7]).1,
    (Serve_dispatch_order threeLocations [AcceptOutcome.conn 4]).2.1 6 (by decide)⟩

/-- C13: the `Handle` calls that the registration phase of `ListenAndServe`
makes on the `Mux` are those of the Locations whose handler resolves, in
configuration order and one per such Location; for two resolvable Locations at
indices i < j the call for i comes before the call for j. -/
theorem ListenAndServe_registration_order {H : Type} (me : Server H)
    (f : Location → Option H) (bind : Option GoError) (outcomes : List AcceptOutcome) :
    (me.ListenAndServe f bind outcomes).1.Mux =
      me.Mux ++ me.CFG.Locations.filterMap (fun l => (f l).map (fun h =>
        MuxCall.handle (if l.Pattern = "" then "/" else l.Pattern) h)) ∧
    (me.ListenAndServe f bind outcomes).1.Mux.length =
      me.Mux.length + me.CFG.Locations.countP (fun l => (f l).isSome) ∧
    (∀ pre mid post a b ha hb, me.CFG.Locations = pre ++ a :: (mid ++ b :: post) →
      f a = some ha → f b = some hb →
      (me.ListenAndServe f bind outcomes).1.Mux =
        me.Mux ++
          pre.filterMap (fun l => (f l).map (fun h =>
            MuxCall.handle (if l.Pattern = "" then "/" else l.Pattern) h)) ++
          MuxCall.handle (if a.Pattern = "" then "/" else a.Pattern) ha ::
          (mid.filterMap (fun l => (f l).map (fun h =>
            MuxCall.handle (if l.Pattern = "" then "/" else l.Pattern) h)) ++
          MuxCall.handle (if b.Pattern = "" then "/" else b.Pattern) hb ::
          post.filterMap (fun l => (f l).map (fun h =>
            MuxCall.handle (if l.Pattern = "" then "/" else l.Pattern) h)))) := by
  refine ⟨ListenAndServe_mux me f bind outcomes, ?_, ?_⟩
  · rw [ListenAndServe_mux, List.length_append]
    congr 1
    generalize me.CFG.Locations = locs
    induction locs with
    | nil => rfl
    | cons x t ih =>
      cases hx : f x with
      | none => simp [List.filterMap_cons, hx, ih]
      | some h => simp [List.filterMap_cons, hx, ih]
  · intro pre mid post a b ha hb hlocs hfa hfb
    rw [ListenAndServe_mux, hlocs, List.filterMap_append, List.filterMap_cons]
    simp only [hfa, Option.map_some']
    rw [List.filterMap_append, List.filterMap_cons]
    simp only [hfb, Option.map_some', List.append_assoc]

/-- C13 at `threeLocations`: the first Location is registered before the
third, and the unresolvable second Location adds nothing in between. -/
theorem ListenAndServe_registration_order_witness :
    (threeLocations.ListenAndServe liveFactory none []).1.Mux =
      [MuxCall.init] ++ [] ++ MuxCall.handle "/live" "/live" ::
        ([] ++ MuxCall.handle "/" "" :: []) :=
  (ListenAndServe_registration_order threeLocations liveFactory none []).2.2
    [] [{ Pattern := "/x", Handler := "bogus" }] []
    { Pattern := "/live", Handler := "rtmp-live" } { Pattern := "", Handler := "rtmp-live" }
    "/live" "" rfl (by decide) (by decide)

/-! ## Theorems: bounds of the backoff, the warning line -/

/-- One iteration keeps the delay between 5 ms and one second, and every sleep
it adds to the trace is the delay it started with. -/
theorem serveStep_bounds (st : ServeState) (o : AcceptOutcome)
    (hd : 5 * Millisecond ≤ st.d ∧ st.d ≤ Second)
    (hs : ∀ s ∈ sleeps st.trace, 5 * Millisecond ≤ s ∧ s ≤ Second) :
    (5 * Millisecond ≤ (serveStep st o).d ∧ (serveStep st o).d ≤ Second) ∧
    ∀ s ∈ sleeps (serveStep st o).trace, 5 * Millisecond ≤ s ∧ s ≤ Second := by
  cases hret : st.ret with
  | some e =>
    rw [serveStep_returned st e o hret]
    exact ⟨hd, hs⟩
  | none =>
    cases o with
    | conn c =>
      rw [serveStep_conn st c hret]
      refine ⟨hd, ?_⟩
      intro s hmem
      simp only [sleeps_append, sleeps, List.append_nil] at hmem
      exact hs s hmem
    | fail e =>
      cases he : e.isTemporary with
      | true =>
        rw [serveStep_transient st e hret he]
        have h0 : 0 ≤ st.d := by
          have := hd.1
          simp only [Millisecond] at this
          omega
        refine ⟨?_, ?_⟩
        · simp only [next_delay st.d h0 hd.2]
          have h1 := hd.1
          have h2 := hd.2
          simp only [Millisecond, Second] at h1 h2 ⊢
          omega
        · intro s hmem
          simp only [sleeps_append, sleeps, List.mem_append, List.mem_singleton] at hmem
          rcases hmem with hmem | rfl
          · exact hs s hmem
          · exact hd
      | false =>
        rw [serveStep_fatal st e hret he]
        refine ⟨hd, ?_⟩
        intro s hmem
        simp only [sleeps_append, sleeps, List.append_nil] at hmem
        exact hs s hmem

/-- The loop keeps the delay and every sleep between 5 ms and one second. -/
theorem serveFrom_bounds (outs : List AcceptOutcome) (st : ServeState)
    (hd : 5 * Millisecond ≤ st.d ∧ st.d ≤ Second)
    (hs : ∀ s ∈ sleeps st.trace, 5 * Millisecond ≤ s ∧ s ≤ Second) :
    (5 * Millisecond ≤ (serveFrom st outs).d ∧ (serveFrom st outs).d ≤ Second) ∧
    ∀ s ∈ sleeps (serveFrom st outs).trace, 5 * Millisecond ≤ s ∧ s ≤ Second := by
  induction outs generalizing st with
  | nil => exact ⟨hd, hs⟩
  | cons o t ih =>
    rw [serveFrom_cons]
    exact ih (serveStep st o) (serveStep_bounds st o hd hs).1 (serveStep_bounds st o hd hs).2

/-- C14: whatever the listener has answered so far, the backoff delay of
`Serve` is at least 5 ms and at most one second, its double lies inside the
`int64` range so that `d *= 2` does not wrap, and every sleep taken so far
lasted between 5 ms and one second. -/
theorem Serve_backoff_bounds {H : Type} (me : Server H) (outs : List AcceptOutcome) :
    5 * Millisecond ≤ (me.Serve outs).d ∧ (me.Serve outs).d ≤ 1 * Second ∧
    (-(2 : Int) ^ 63 ≤ (me.Serve outs).d * 2 ∧ (me.Serve outs).d * 2 < 2 ^ 63) ∧
    wrapInt64 ((me.Serve outs).d * 2) = (me.Serve outs).d * 2 ∧
    ∀ s ∈ sleeps (me.Serve outs).trace, 5 * Millisecond ≤ s ∧ s ≤ 1 * Second := by
  have hinit : 5 * Millisecond ≤ serveInit.d ∧ serveInit.d ≤ Second := by
    simp only [serveInit, Millisecond, Second]
    omega
  have hsl : ∀ s ∈ sleeps serveInit.trace, 5 * Millisecond ≤ s ∧ s ≤ Second := by
    intro s hmem
    simp [serveInit, sleeps] at hmem
  obtain ⟨⟨h1, h2⟩, h3⟩ := serveFrom_bounds outs serveInit hinit hsl
  simp only [Server.Serve, one_mul]
  refine ⟨h1, h2, ?_, ?_, h3⟩
  · simp only [Millisecond, Second] at h1 h2
    constructor <;> omega
  · simp only [Millisecond, Second] at h1 h2
    simp only [wrapInt64]
    norm_num
    omega

set_option maxRecDepth 8000 in
/-- C15, the code at its first transient error and at the cap: the integer
that the warning prints before `ms` is the delay in nanoseconds, 5000000 for
the 5 ms sleep and 1000000000 for the one-second sleep, not 5 and 1000. -/
theorem Serve_warning_prints_nanoseconds :
    (threeLocations.Serve [AcceptOutcome.fail (GoError.net 1 true)]).trace =
      [Event.accept, Event.warnAccept (GoError.net 1 true) 5000000,
        Event.sleep (5 * Millisecond), Event.accept] ∧
    5 * Millisecond / Millisecond = 5 ∧
    (threeLocations.Serve
      (List.replicate 9 (AcceptOutcome.fail (GoError.net 1 true)))).trace.drop 25 =
      [Event.warnAccept (GoError.net 1 true) 1000000000, Event.sleep (1000 * Millisecond),
        Event.accept] :=
  ⟨rfl, by decide, rfl⟩

/-! ## Theorems: the `Listening on port` line, monotone sleeps -/

/-- An iteration of the accept loop logs no `Listening on port` line and
calls no `net.Listen`. -/
theorem serveStep_no_listen (st : ServeState) (o : AcceptOutcome) :
    (serveStep st o).trace.countP Event.isInfoListening =
      st.trace.countP Event.isInfoListening ∧
    (serveStep st o).trace.countP Event.isListen = st.trace.countP Event.isListen := by
  cases hret : st.ret with
  | some e => rw [serveStep_returned st e o hret]; exact ⟨rfl, rfl⟩
  | none =>
    cases o with
    | conn c =>
      rw [serveStep_conn st c hret]
      simp [List.countP_append, List.countP_cons, Event.isInfoListening, Event.isListen]
    | fail e =>
      cases he : e.isTemporary with
      | true =>
        rw [serveStep_transient st e hret he]
        simp [List.countP_append, List.countP_cons, Event.isInfoListening, Event.isListen]
      | false =>
        rw [serveStep_fatal st e hret he]
        simp [List.countP_append, List.countP_cons, Event.isInfoListening, Event.isListen]

/-- The accept loop logs no `Listening on port` line and calls no `net.Listen`. -/
theorem serveFrom_no_listen (outs : List AcceptOutcome) (st : ServeState) :
    (serveFrom st outs).trace.countP Event.isInfoListening =
      st.trace.countP Event.isInfoListening ∧
    (serveFrom st outs).trace.countP Event.isListen = st.trace.countP Event.isListen := by
  induction outs generalizing st with
  | nil => exact ⟨rfl, rfl⟩
  | cons o t ih =>
    rw [serveFrom_cons]
    exact ⟨(ih (serveStep st o)).1.trans (serveStep_no_listen st o).1,
      (ih (serveStep st o)).2.trans (serveStep_no_listen st o).2⟩

/-- C16 as stated fails: in a run where `net.Listen` fails, the
`Listening on port` line has been logged. -/
theorem ListenAndServe_listening_counterexample :
    ¬ ∀ (err : GoError) (port : Int),
      Event.infoListening port ∉
        (threeLocations.ListenAndServe liveFactory (some err) []).2.1 := by
  intro h
  exact h (GoError.other 0) 1935 (by decide)

/-- C16, amended: in every run of `ListenAndServe`, whether `net.Listen` then
fails or succeeds, the `Listening on port` line is logged exactly once, after
the registration loop and immediately before the one call of `net.Listen`, so
before any `Accept`; on failure the `Failed to listen` line follows the call,
on success the keep-alive listener and the accept loop follow it. -/
theorem ListenAndServe_listening_logged_once {H : Type} (me : Server H)
    (f : Location → Option H) (outcomes : List AcceptOutcome) :
    (∀ bind, (me.ListenAndServe f bind outcomes).2.1.countP Event.isInfoListening = 1 ∧
      (me.ListenAndServe f bind outcomes).2.1.countP Event.isListen = 1) ∧
    (∀ err, (me.ListenAndServe f (some err) outcomes).2.1 =
      (registerLocations f me).2 ++
        [Event.infoListening me.CFG.Port, Event.listen me.CFG.Port,
          Event.errorListen me.CFG.Port]) ∧
    (me.ListenAndServe f none outcomes).2.1 =
      (registerLocations f me).2 ++
        [Event.infoListening me.CFG.Port, Event.listen me.CFG.Port,
          Event.keepAliveInit (wrapInt64 (me.CFG.MaxIdleTime * Second))] ++
        (me.Serve outcomes).trace ∧
    acceptCalls (registerLocations f me).2 = 0 ∧
    (registerLocations f me).2.countP Event.isInfoListening = 0 ∧
    (registerLocations f me).2.countP Event.isListen = 0 := by
  obtain ⟨h1, -, -, h4, h5⟩ := registration_only _ (registerLocations_trace f me)
  obtain ⟨h6, h7⟩ := serveFrom_no_listen outcomes serveInit
  refine ⟨?_, ?_, ?_, h1, h4, h5⟩
  · intro bind
    cases bind with
    | some err =>
      rw [ListenAndServe_bind_failure]
      simp [List.countP_append, List.countP_cons, h4, h5, Event.isInfoListening,
        Event.isListen]
    | none =>
      rw [ListenAndServe_bind_success]
      simp only [List.countP_append, h4, h5, h6, h7]
      simp [List.countP_cons, serveInit, Event.isInfoListening, Event.isListen]
  · intro err
    rw [ListenAndServe_bind_failure]
  · rw [ListenAndServe_bind_success]
    rfl

/-- The sleeps of the loop from a running state whose delay is
`min (5ms * 2 ^ n) 1s`: one per transient error before the first fatal answer,
each the double of the one before, up to one second. -/
theorem serveFrom_sleeps (outs : List AcceptOutcome) (st : ServeState) (n : Nat)
    (hret : st.ret = none) (hd : st.d = min (5 * Millisecond * 2 ^ n) Second) :
    sleeps (serveFrom st outs).trace =
      sleeps st.trace ++
        (List.range ((outs.takeWhile (fun o => !o.isFatal)).countP
          AcceptOutcome.isTransient)).map
          (fun k => min (5 * Millisecond * 2 ^ (n + k)) Second) := by
  induction outs generalizing st n with
  | nil => simp [serveFrom_nil]
  | cons o t ih =>
    rw [serveFrom_cons]
    cases o with
    | conn c =>
      rw [serveStep_conn st c hret,
        ih { st with trace := st.trace ++ [Event.spawn c, Event.accept] } n hret hd]
      simp [sleeps_append, sleeps, AcceptOutcome.isFatal, AcceptOutcome.isTransient]
    | fail e =>
      cases he : e.isTemporary with
      | true =>
        rw [serveStep_transient st e hret he,
          ih _ (n + 1) rfl (by simp only [hd]; exact next_delay_pow n)]
        have htw : (AcceptOutcome.fail e :: t).takeWhile (fun o => !o.isFatal) =
            AcceptOutcome.fail e :: t.takeWhile (fun o => !o.isFatal) := by
          rw [List.takeWhile_cons_of_pos]
          simp [AcceptOutcome.isFatal, he]
        rw [htw, List.countP_cons_of_pos _ _ (by simpa [AcceptOutcome.isTransient] using he)]
        simp only [sleeps_append, sleeps, List.range_succ_eq_map, List.map_cons, List.map_map,
          List.append_assoc, List.nil_append, List.cons_append, List.append_nil, hd,
          Nat.add_zero]
        congr 2
        apply List.map_congr_left
        intro k _
        simp only [Function.comp, Nat.succ_eq_add_one]
        rw [show n + 1 + k = n + (k + 1) by omega]
      | false =>
        rw [serveStep_fatal st e hret he, serveFrom_returned _ e t rfl]
        simp [sleeps_append, sleeps, AcceptOutcome.isFatal, he]

/-- The capped delay does not decrease with the number of doublings. -/
theorem delay_mono (a b : Nat) (h : a ≤ b) :
    min (5 * Millisecond * 2 ^ a) Second ≤ min (5 * Millisecond * 2 ^ b) Second := by
  apply min_le_min_right
  apply mul_le_mul_of_nonneg_left
  · exact pow_le_pow_right₀ (by norm_num) h
  · simp only [Millisecond]; norm_num

/-- C17: within a run of `Serve`, successes do not change the backoff: the
sleep for the n-th transient error of the run, counted from 0 over the answers
before the first non-transient error and ignoring successes, is
`min (5ms * 2 ^ n) 1s`, and of two sleeps the later one is never shorter. -/
theorem Serve_sleeps_monotone {H : Type} (me : Server H) (outs : List AcceptOutcome) :
    sleeps (me.Serve outs).trace =
      (List.range ((outs.takeWhile (fun o => !o.isFatal)).countP
        AcceptOutcome.isTransient)).map (fun n => min (5 * Millisecond * 2 ^ n) Second) ∧
    (∀ (i j : Nat) (a b : Int), i < j → (sleeps (me.Serve outs).trace)[i]? = some a →
      (sleeps (me.Serve outs).trace)[j]? = some b → a ≤ b) := by
  have hs : sleeps (me.Serve outs).trace =
      (List.range ((outs.takeWhile (fun o => !o.isFatal)).countP
        AcceptOutcome.isTransient)).map (fun n => min (5 * Millisecond * 2 ^ n) Second) := by
    simp only [Server.Serve]
    rw [serveFrom_sleeps outs serveInit 0 rfl serveInit_delay]
    simp [serveInit, sleeps]
  refine ⟨hs, ?_⟩
  intro i j a b hij ha hb
  rw [hs, List.getElem?_map] at ha hb
  have hi : i < (outs.takeWhile (fun o => !o.isFatal)).countP AcceptOutcome.isTransient := by
    by_contra hge
    rw [List.getElem?_eq_none (by simp; omega)] at ha
    cases ha
  have hj : j < (outs.takeWhile (fun o => !o.isFatal)).countP AcceptOutcome.isTransient := by
    by_contra hge
    rw [List.getElem?_eq_none (by simp; omega)] at hb
    cases hb
  rw [List.getElem?_range hi] at ha
  rw [List.getElem?_range hj] at hb
  simp only [Option.map_some', Option.some.injEq] at ha hb
  rw [← ha, ← hb]
  exact delay_mono i j (by omega)

/-- C17 at a transient error, two successes and a second transient error: the
sleeps are 5 ms and then 10 ms, and the second is not shorter than the first. -/
theorem Serve_sleeps_monotone_witness :
    sleeps (threeLocations.Serve
      [AcceptOutcome.fail (GoError.net 1 true), AcceptOutcome.conn 1, AcceptOutcome.conn 2,
        AcceptOutcome.fail (GoError.net 2 true)]).trace = [5000000, 10000000] ∧
    (5000000 : Int) ≤ 10000000 :=
  ⟨(Serve_sleeps_monotone threeLocations
      [AcceptOutcome.fail (GoError.net 1 true), AcceptOutcome.conn 1, AcceptOutcome.conn 2,
        AcceptOutcome.fail (GoError.net 2 true)]).1,
    (Serve_sleeps_monotone threeLocations
      [AcceptOutcome.fail (GoError.net 1 true), AcceptOutcome.conn 1, AcceptOutcome.conn 2,
        AcceptOutcome.fail (GoError.net 2 true)]).2 0 1 5000000 10000000 (by decide) rfl rfl⟩

end rtmp
